import Mathlib

/-!
Verification development for the fetch-gh-release-asset action.

The repository holds two near-duplicate implementations of the same
design: src/index.ts and a second unnamed near-duplicate source file
(referred to below as the part_000 variant). Both are embedded here.
Pure functions of the source become Lean functions; the effectful parts
(HTTP exchange, filesystem writes, published step outputs) become
explicit traces and state transitions.
-/

namespace FetchGhReleaseAsset

/-! ## Data model -/

/-- The ambient invocation context: the repository the automation runs in. -/
structure ActionContext where
  owner : String
  repo : String
deriving DecidableEq, Repr

/-- Result record of getRepo. -/
structure GetRepoResult where
  owner : String
  repo : String
deriving DecidableEq, Repr

/-- A release asset: platform id and display name. -/
structure Asset where
  id : Nat
  name : String
deriving DecidableEq, Repr

/-- A resolved release record, as read by main: tag name, display name,
free-text body, ordered asset list, and the archive (zipball) URL, which
the platform may omit. -/
structure Release where
  tag_name : String
  name : String
  body : String
  assets : List Asset
  zipball_url : Option String
deriving DecidableEq, Repr

/-! ## JS string split (String.prototype.split with a one-character
separator), used by getRepo. Splitting never yields an empty list; the
empty string splits to a single empty piece. -/

def jsSplitChar (sep : Char) : List Char → List (List Char)
  | [] => [[]]
  | c :: cs =>
    let rest := jsSplitChar sep cs
    if c = sep then [] :: rest
    else
      match rest with
      | [] => [[c]]
      | r :: rs => (c :: r) :: rs

def jsSplit (sep : Char) (s : String) : List String :=
  (jsSplitChar sep s.data).map String.mk

/-! ## getRepo (src/index.ts lines 18-27; identical in the part_000
variant): empty input falls back to the ambient context; otherwise the
input is split on the slash and the first two pieces are taken; a
missing piece raises the error Malformed repo. -/

def getRepo (inputRepoString : String) (context : ActionContext) :
    Except String GetRepoResult :=
  if inputRepoString = "" then
    Except.ok ⟨context.owner, context.repo⟩
  else
    let parts := jsSplit '/' inputRepoString
    match parts[0]?, parts[1]? with
    | some owner, some repo => Except.ok ⟨owner, repo⟩
    | _, _ => Except.error "Malformed repo"

/-! ## JS number coercion. getRelease computes Math.trunc(Number(version)).
The model keeps finite values exact, as canonical fractions whose
denominator is built from a power of ten (the source converts to a binary
double; on the integer release identifiers this path is used for, the two
coincide). -/

/-- A JS number as far as this program observes it: NaN, an infinity, or
a finite value num over den. Values built by mkFin are in lowest terms. -/
inductive JsNum where
  | nan : JsNum
  | inf : Bool → JsNum
  | fin : Int → Nat → JsNum
deriving DecidableEq, Repr

/-- Strip the common factor p from a fraction as long as both parts carry
it; fuel bounds the loop. -/
def stripFactor (p : Nat) : Nat → Int × Nat → Int × Nat
  | 0, nd => nd
  | fuel + 1, (n, d) =>
    if Int.emod n (Int.ofNat p) = 0 ∧ d % p = 0 ∧ 1 < d then
      stripFactor p fuel (Int.tdiv n (Int.ofNat p), d / p)
    else (n, d)

/-- Canonical finite JS number from a fraction whose denominator is a
power of ten: strip the shared factors of two and of five. -/
def mkFin (n : Int) (d : Nat) : JsNum :=
  let p1 := stripFactor 2 d (n, d)
  let p2 := stripFactor 5 p1.2 p1
  JsNum.fin p2.1 p2.2

/-- StrWhiteSpaceChar: the characters Number trims from both ends. -/
def isStrWhiteSpace (c : Char) : Bool :=
  c = ' ' ∨ c = '\t' ∨ c = '\n' ∨ c = '\r' ∨
  c = Char.ofNat 0x0b ∨ c = Char.ofNat 0x0c ∨ c = Char.ofNat 0xa0 ∨
  c = Char.ofNat 0xfeff ∨ c = Char.ofNat 0x1680 ∨
  (Char.ofNat 0x2000 ≤ c ∧ c ≤ Char.ofNat 0x200a) ∨
  c = Char.ofNat 0x2028 ∨ c = Char.ofNat 0x2029 ∨
  c = Char.ofNat 0x202f ∨ c = Char.ofNat 0x205f ∨ c = Char.ofNat 0x3000

def isDecDigit (c : Char) : Bool := '0' ≤ c ∧ c ≤ '9'

def isHexDigit (c : Char) : Bool :=
  isDecDigit c ∨ ('a' ≤ c ∧ c ≤ 'f') ∨ ('A' ≤ c ∧ c ≤ 'F')

def isOctDigit (c : Char) : Bool := '0' ≤ c ∧ c ≤ '7'

def isBinDigit (c : Char) : Bool := c = '0' ∨ c = '1'

def decDigitVal (c : Char) : Nat := c.toNat - '0'.toNat

def hexDigitVal (c : Char) : Nat :=
  if isDecDigit c then decDigitVal c
  else if 'a' ≤ c ∧ c ≤ 'f' then c.toNat - 'a'.toNat + 10
  else c.toNat - 'A'.toNat + 10

def digitsToNat (radix : Nat) (val : Char → Nat) (ds : List Char) : Nat :=
  ds.foldl (fun a c => radix * a + val c) 0

/-- A signed mantissa scaled by ten to an integer power, as an
unnormalized fraction. -/
def scaleByPow10 (m : Int) (e : Int) : Int × Nat :=
  if 0 ≤ e then (m * Int.ofNat ((10 : Nat) ^ e.toNat), 1)
  else (m, (10 : Nat) ^ (-e).toNat)

/-- ExponentPart of a decimal literal; the whole remainder must be it
(or be empty). -/
def parseExpPart : List Char → Option Int
  | [] => some 0
  | c :: rest =>
    if c = 'e' ∨ c = 'E' then
      match rest with
      | '+' :: ds =>
        if ds ≠ [] ∧ ds.all isDecDigit
        then some (digitsToNat 10 decDigitVal ds) else none
      | '-' :: ds =>
        if ds ≠ [] ∧ ds.all isDecDigit
        then some (-(digitsToNat 10 decDigitVal ds : Int)) else none
      | ds =>
        if ds ≠ [] ∧ ds.all isDecDigit
        then some (digitsToNat 10 decDigitVal ds) else none
    else none

/-- StrUnsignedDecimalLiteral without the Infinity form: digits with an
optional fraction and exponent, or a fraction alone with an exponent.
Returns the unnormalized fraction of the value. -/
def parseUnsignedDec (cs : List Char) : Option (Int × Nat) :=
  let ip := cs.takeWhile isDecDigit
  let rest := cs.dropWhile isDecDigit
  match rest with
  | '.' :: rest2 =>
    let fp := rest2.takeWhile isDecDigit
    let rest3 := rest2.dropWhile isDecDigit
    if ip = [] ∧ fp = [] then none
    else
      match parseExpPart rest3 with
      | some e =>
        some (scaleByPow10 (Int.ofNat (digitsToNat 10 decDigitVal (ip ++ fp)))
          (e - fp.length))
      | none => none
  | _ =>
    if ip = [] then none
    else
      match parseExpPart rest with
      | some e =>
        some (scaleByPow10 (Int.ofNat (digitsToNat 10 decDigitVal ip)) e)
      | none => none

/-- NonDecimalIntegerLiteral: 0x, 0o or 0b bodies (no sign allowed). -/
def parseNonDec (cs : List Char) : Option Nat :=
  match cs with
  | '0' :: x :: ds =>
    if (x = 'x' ∨ x = 'X') ∧ ds ≠ [] ∧ ds.all isHexDigit then
      some (digitsToNat 16 hexDigitVal ds)
    else if (x = 'o' ∨ x = 'O') ∧ ds ≠ [] ∧ ds.all isOctDigit then
      some (digitsToNat 8 decDigitVal ds)
    else if (x = 'b' ∨ x = 'B') ∧ ds ≠ [] ∧ ds.all isBinDigit then
      some (digitsToNat 2 decDigitVal ds)
    else none
  | _ => none

/-- Number(s) for a string argument: trim whitespace, empty means zero,
otherwise the whole remainder must be a numeric literal, else NaN. -/
def jsStrToNumber (s : String) : JsNum :=
  let cs := ((s.data.dropWhile isStrWhiteSpace).reverse.dropWhile
      isStrWhiteSpace).reverse
  match cs with
  | [] => JsNum.fin 0 1
  | _ :: _ =>
    match parseNonDec cs with
    | some v => JsNum.fin (Int.ofNat v) 1
    | none =>
      let signAndBody : Bool × List Char :=
        match cs with
        | '+' :: r => (false, r)
        | '-' :: r => (true, r)
        | r => (false, r)
      let neg := signAndBody.1
      let body := signAndBody.2
      if body = "Infinity".data then JsNum.inf neg
      else
        match parseUnsignedDec body with
        | some nd => mkFin (if neg then -nd.1 else nd.1) nd.2
        | none => JsNum.nan

/-- Math.trunc: truncation toward zero; NaN and infinities pass through. -/
def jsTrunc : JsNum → JsNum
  | JsNum.nan => JsNum.nan
  | JsNum.inf b => JsNum.inf b
  | JsNum.fin n d => JsNum.fin (Int.tdiv n (Int.ofNat d)) 1

/-! ## getRelease (src/index.ts lines 35-55; identical in the part_000
variant). -/

/-- The request getRelease issues against the platform. -/
inductive ReleaseRequest where
  | latest : String → String → ReleaseRequest
  | byTag : String → String → String → ReleaseRequest
  | byId : String → String → JsNum → ReleaseRequest
deriving DecidableEq, Repr

/-- A JS LineTerminator character; the dot of a regular expression does
not match these. -/
def isJsLineTerminator (c : Char) : Bool :=
  c = '\n' ∨ c = '\r' ∨ c = Char.ofNat 0x2028 ∨ c = Char.ofNat 0x2029

/-- Embeds version.match against the anchored pattern that captures
everything after the five-character tags-slash head: it matches exactly
when the input starts with that head and the remainder holds no
LineTerminator (the dot cannot cross one and the end anchor must be
reached); the capture is the remainder. -/
def matchTagsPattern (version : String) : Option String :=
  match version.data with
  | 't' :: 'a' :: 'g' :: 's' :: '/' :: rest =>
    if rest.any isJsLineTerminator then none else some (String.mk rest)
  | _ => none

/-- JS truthiness of the guard on the capture: the match succeeded and
the captured group is non-empty. -/
def jsTruthyCapture : Option String → Bool
  | none => false
  | some s => s ≠ ""

/-- getRelease: dispatch on the version descriptor. The latest branch is
checked first; the tag branch requires a successful match with a truthy
capture; every other descriptor is coerced with Number, truncated with
Math.trunc and used as the release identifier. -/
def getRelease (owner repo version : String) : ReleaseRequest :=
  let tagsMatch := matchTagsPattern version
  if version = "latest" then ReleaseRequest.latest owner repo
  else if jsTruthyCapture tagsMatch then
    ReleaseRequest.byTag owner repo (tagsMatch.getD "")
  else
    ReleaseRequest.byId owner repo (jsTrunc (jsStrToNumber version))

/-! ## Asset matchers (src/index.ts lines 128-132; identical in the
part_000 variant). -/

/-- All contiguous substrings of a character list. -/
def listInfixes (l : List Char) : List (List Char) :=
  l.tails.flatMap List.inits

/-- Modelled from the spec: the regular-expression engine is a platform
builtin, abstracted as the full-match predicate M of the compiled
pattern; RegExp(file).test(name) uses search semantics, accepting name
exactly when some contiguous substring of name is matched. -/
def jsRegexTest (M : String → String → Bool) (pattern target : String) : Bool :=
  (listInfixes target.data).any (fun sub => M pattern (String.mk sub))

/-- filterByFileName: exact, case-sensitive name equality. -/
def filterByFileName (file : String) (asset : Asset) : Bool :=
  file = asset.name

/-- filterByRegex: the file input compiled as a regular expression and
tested against the asset name. -/
def filterByRegex (M : String → String → Bool) (file : String)
    (asset : Asset) : Bool :=
  jsRegexTest M file asset.name

/-- The filter main applies to the release asset list, selected by the
regex flag. -/
def matchedAssets (M : String → String → Bool) (usesRegex : Bool)
    (file : String) (assets : List Asset) : List Asset :=
  assets.filter (if usesRegex then filterByRegex M file else filterByFileName file)

/-! ## Filesystem model and baseFetchFile (src/index.ts lines 69-96;
the part_000 variant lines 65-92 differ only in which headers are set,
not in the accept/write behaviour verified here). -/

/-- Node path.dirname with posix separators: strip trailing separators,
strip the last component, return the remainder (dot for no directory
part, the root for a rooted path whose directory part is the root). -/
def dirname (p : String) : String :=
  match p.data with
  | [] => "."
  | c0 :: _ =>
    let hasRoot := c0 = '/'
    let rev1 := p.data.reverse.dropWhile (fun c => c = '/')
    let rev2 := rev1.dropWhile (fun c => c ≠ '/')
    match rev2 with
    | [] => if hasRoot then "/" else "."
    | _ :: rest =>
      if rest = [] then "/"
      else if hasRoot ∧ rest = ['/'] then "//"
      else String.mk rest.reverse

/-- The chain of directories mkdir with the recursive flag creates:
the directory itself and every ancestor, via repeated dirname up to a
fixed point; fuel bounds the iteration. -/
def ancestorChain : Nat → String → List String
  | 0, _ => []
  | fuel + 1, p =>
    let d := dirname p
    if d = p then [p] else p :: ancestorChain fuel d

/-- A filesystem: the set of directories known to exist and the files
with their byte contents. -/
structure FileSys where
  dirs : List String
  files : List (String × List Nat)
deriving DecidableEq, Repr

/-- mkdir of dir with the recursive flag: dir and all its missing
ancestors come to exist; existing entries are untouched. -/
def mkdirRecursive (dir : String) (fs : FileSys) : FileSys :=
  { fs with dirs := ancestorChain (dir.data.length + 2) dir ++ fs.dirs }

/-- writeFile: create or overwrite the file at path with the bytes. -/
def writeFileAt (path : String) (bytes : List Nat) (fs : FileSys) : FileSys :=
  { fs with files := (path, bytes) :: fs.files.filter (fun kv => kv.1 ≠ path) }

/-- The bytes stored at a path, if any. -/
def readFileAt (path : String) (fs : FileSys) : Option (List Nat) :=
  (fs.files.find? (fun kv => kv.1 = path)).map (fun kv => kv.2)

/-- Whether a directory exists. -/
def dirExists (dir : String) (fs : FileSys) : Prop :=
  dir ∈ fs.dirs

/-- An HTTP response as one attempt observes it: the ok flag (status in
the success range) and the body, readable as bytes or as text. -/
structure HttpResponse where
  ok : Bool
  body : List Nat
deriving DecidableEq, Repr

/-- What a single baseFetchFile attempt did. -/
structure AttemptResult where
  fs : FileSys
  logged : List (List Nat)
  outcome : Except String Unit
deriving Repr

/-- baseFetchFile, one attempt: a non-ok response has its body read and
logged as a warning and raises Invalid response, leaving the filesystem
alone; an ok response has its full body read, the parent directory of
the output path created recursively, and the body written to the output
path. -/
def baseFetchFile (response : HttpResponse) (outputPath : String)
    (fs : FileSys) : AttemptResult :=
  if !response.ok then
    { fs := fs, logged := [response.body]
      outcome := Except.error "Invalid response" }
  else
    let fs1 := mkdirRecursive (dirname outputPath) fs
    let fs2 := writeFileAt outputPath response.body fs1
    { fs := fs2, logged := [], outcome := Except.ok () }

/-! ## The retry wrapper (src/index.ts lines 98-120; part_000 variant
lines 94-141). In the source, retry is invoked with a single argument:
the callback. The callback body ends in the comma expression
(baseFetchFile(parameters, endpoint), \x7b retries: 5, minTimeout:
1000 \x7d), so the options record is the callback RETURN VALUE rather
than a second argument of retry, and the started download promise is
discarded unawaited. The embedding keeps both effects visible: each
callback run reports how many downloads it started and what it returned
or threw. -/

/-- The record the callback returns in place of the download promise. -/
structure RetryOpts where
  retries : Nat
  minTimeout : Nat
deriving DecidableEq, Repr

/-- Trace of one retry execution: callback runs, downloads started
(floating, their outcome unobserved), and the settled result. -/
structure RetryTrace (α : Type) where
  cbCalls : Nat
  downloadsStarted : Nat
  result : Except String α
deriving Repr

/-- The async-retry executor: run the callback; a thrown error consumes
one of the remaining retries, a returned value settles the promise.
When no options argument is given it uses its default of ten retries. -/
def asyncRetryLoop {α : Type} (cb : Unit → Nat × Except String α) :
    Nat → RetryTrace α
  | 0 =>
    let r := cb ()
    { cbCalls := 1, downloadsStarted := r.1, result := r.2 }
  | fuel + 1 =>
    let r := cb ()
    match r.2 with
    | Except.ok v =>
      { cbCalls := 1, downloadsStarted := r.1, result := Except.ok v }
    | Except.error _ =>
      let t := asyncRetryLoop cb fuel
      { cbCalls := t.cbCalls + 1, downloadsStarted := t.downloadsStarted + r.1
        result := t.result }

/-- async-retry default retries, applicable because the source passes no
options argument. -/
def asyncRetryDefaultRetries : Nat := 10

/-- fetchAssetFile: retry of a callback that builds the asset endpoint,
starts one download of it, and returns the options record. The
parameter env gives the eventual outcome of each started download; it is
threaded only to record that nothing of the result depends on it. -/
def fetchAssetFile (env : Nat → Bool) : RetryTrace RetryOpts :=
  let _ := env
  asyncRetryLoop
    (fun _ => (1, Except.ok { retries := 5, minTimeout := 1000 }))
    asyncRetryDefaultRetries

/-- fetchSourceFile: same shape as fetchAssetFile, against the archive
URL. -/
def fetchSourceFile (env : Nat → Bool) : RetryTrace RetryOpts :=
  let _ := env
  asyncRetryLoop
    (fun _ => (1, Except.ok { retries := 5, minTimeout := 1000 }))
    asyncRetryDefaultRetries

/-! ## main, from the point where the release is resolved
(src/index.ts lines 134-187; part_000 variant lines 155-201). The two
variants differ only in the archive branch. The downloads each variant
awaits are recorded as a trace; the parameter dl gives the outcome the
awaited downloader reports for a download (the propagation-policy claims
quantify over it; per the retry embedding above the downloader of the
shipped code always resolves). -/

/-- One download main awaits: an asset download by id, or a source
archive download by URL, each with its output path. -/
inductive DlSpec where
  | assetDl : Nat → String → DlSpec
  | sourceDl : String → String → DlSpec
deriving DecidableEq, Repr

/-- Observable trace of a main run: downloads awaited in order, step
outputs published in order, and the error of an aborted run if any. -/
structure MainTrace where
  downloads : List DlSpec
  outputs : List (String × String)
  failed : Option String
deriving DecidableEq, Repr

/-- printOutput: the three release outputs. -/
def printOutput (release : Release) : List (String × String) :=
  [("version", release.tag_name), ("name", release.name),
   ("body", release.body)]

/-- The configuration inputs main reads. -/
structure MainInputs where
  file : String
  inputTarget : String
  usesRegex : Bool
  onlySourceZip : Bool
deriving DecidableEq, Repr

/-- target defaulting: an empty target input falls back to the file
input. -/
def resolveTarget (inputTarget file : String) : String :=
  if inputTarget = "" then file else inputTarget

/-- Per-asset output path: the shared target in exact mode, the target
followed by the asset name in regex mode. -/
def assetOutputPath (usesRegex : Bool) (target : String) (a : Asset) : String :=
  if usesRegex then target ++ a.name else target

/-- Await the downloads in order; stop at the first failure. Returns the
downloads awaited (the failing one included) and whether all succeeded. -/
def runDownloads (dl : DlSpec → Bool) : List DlSpec → List DlSpec × Bool
  | [] => ([], true)
  | d :: ds =>
    if dl d then
      let t := runDownloads dl ds
      (d :: t.1, t.2)
    else ([d], false)

/-- The asset downloads main issues in asset mode, in list order: one
per matched asset, each with its output path. -/
def assetDlSpecs (M : String → String → Bool) (usesRegex : Bool)
    (file target : String) (assets : List Asset) : List DlSpec :=
  (matchedAssets M usesRegex file assets).map
    (fun a => DlSpec.assetDl a.id (assetOutputPath usesRegex target a))

/-- The asset-mode tail of main (identical in both variants): filter the
assets, fail when nothing matched, else download each match in order and
publish the outputs. -/
def mainAssetMode (M : String → String → Bool) (dl : DlSpec → Bool)
    (inp : MainInputs) (release : Release) (target : String) : MainTrace :=
  let assets := matchedAssets M inp.usesRegex inp.file release.assets
  if assets = [] then
    { downloads := [], outputs := [], failed := some "Could not find asset id" }
  else
    let specs := assetDlSpecs M inp.usesRegex inp.file target release.assets
    let t := runDownloads dl specs
    if t.2 then
      { downloads := t.1, outputs := printOutput release, failed := none }
    else
      { downloads := t.1, outputs := [], failed := some "Invalid response" }

/-- main of src/index.ts: in archive mode the download goes to the plain
target path and the whole branch sits in a try block whose catch records
the error as a step output and completes the run. -/
def mainIndexTs (M : String → String → Bool) (dl : DlSpec → Bool)
    (inp : MainInputs) (release : Release) : MainTrace :=
  let target := resolveTarget inp.inputTarget inp.file
  if inp.onlySourceZip then
    let d := DlSpec.sourceDl (release.zipball_url.getD "") target
    if dl d then
      { downloads := [d], outputs := printOutput release, failed := none }
    else
      { downloads := [d]
        outputs := [("Error on retrieve source zip", "Invalid response")]
        failed := none }
  else
    mainAssetMode M dl inp release target

/-- main of the part_000 variant: in archive mode the download goes to
target then file then the zip suffix, and a failure propagates and
aborts the run. -/
def mainPart000 (M : String → String → Bool) (dl : DlSpec → Bool)
    (inp : MainInputs) (release : Release) : MainTrace :=
  let target := resolveTarget inp.inputTarget inp.file
  if inp.onlySourceZip then
    let d := DlSpec.sourceDl (release.zipball_url.getD "")
      (target ++ inp.file ++ ".zip")
    if dl d then
      { downloads := [d], outputs := printOutput release, failed := none }
    else
      { downloads := [d], outputs := [], failed := some "Invalid response" }
  else
    mainAssetMode M dl inp release target

/-! ### Lemmas about jsSplitChar -/

theorem jsSplitChar_ne_nil (sep : Char) (l : List Char) :
    jsSplitChar sep l ≠ [] := by
  cases l with
  | nil => simp [jsSplitChar]
  | cons c cs =>
    simp only [jsSplitChar]
    by_cases h : c = sep
    · simp [h]
    · simp only [h, if_false]
      cases jsSplitChar sep cs with
      | nil => simp
      | cons r rs => simp

theorem jsSplitChar_of_not_mem (sep : Char) (l : List Char)
    (h : sep ∉ l) : jsSplitChar sep l = [l] := by
  induction l with
  | nil => rfl
  | cons c cs ih =>
    have hc : ¬ c = sep := fun hcs => h (hcs ▸ List.mem_cons_self c cs)
    have hcs : sep ∉ cs := fun hm => h (List.mem_cons_of_mem c hm)
    simp only [jsSplitChar, hc, if_false, ih hcs]

theorem jsSplitChar_append (sep : Char) (a b : List Char)
    (ha : sep ∉ a) : jsSplitChar sep (a ++ sep :: b) = a :: jsSplitChar sep b := by
  induction a with
  | nil => simp [jsSplitChar]
  | cons c a ih =>
    have hc : ¬ c = sep := fun hcs => ha (hcs ▸ List.mem_cons_self c a)
    have ha2 : sep ∉ a := fun hm => ha (List.mem_cons_of_mem c hm)
    simp only [List.cons_append, jsSplitChar, hc, if_false, List.append_eq, ih ha2]

theorem jsSplit_two (owner name : String)
    (ho : '/' ∉ owner.data) (hn : '/' ∉ name.data) :
    jsSplit '/' (owner ++ "/" ++ name) = [owner, name] := by
  have hdata : (owner ++ "/" ++ name).data = owner.data ++ '/' :: name.data := by
    simp [String.data_append]
  rw [jsSplit, hdata, jsSplitChar_append _ _ _ ho, jsSplitChar_of_not_mem _ _ hn]
  simp

/-! ### Lemmas about listInfixes, runDownloads and the filesystem -/

theorem mem_listInfixes (sub l : List Char) :
    sub ∈ listInfixes l ↔ sub <:+: l := by
  rw [listInfixes, List.infix_iff_prefix_suffix]
  constructor
  · intro h
    rcases List.mem_flatMap.mp h with ⟨t, ht, hs⟩
    exact ⟨t, (List.mem_inits sub t).mp hs, (List.mem_tails t l).mp ht⟩
  · intro h
    rcases h with ⟨t, hp, hsuf⟩
    exact List.mem_flatMap.mpr
      ⟨t, (List.mem_tails t l).mpr hsuf, (List.mem_inits sub t).mpr hp⟩

theorem runDownloads_all_ok (dl : DlSpec → Bool) (l : List DlSpec)
    (h : ∀ d ∈ l, dl d = true) : runDownloads dl l = (l, true) := by
  induction l with
  | nil => rfl
  | cons d ds ih =>
    have hd : dl d = true := h d (List.mem_cons_self d ds)
    have hds : ∀ x ∈ ds, dl x = true := fun x hx => h x (List.mem_cons_of_mem d hx)
    simp [runDownloads, hd, ih hds]

theorem runDownloads_mem (dl : DlSpec → Bool) (l : List DlSpec)
    (d : DlSpec) (h : d ∈ (runDownloads dl l).1) : d ∈ l := by
  induction l with
  | nil => simp [runDownloads] at h
  | cons x xs ih =>
    cases hx : dl x with
    | true =>
      simp only [runDownloads, hx, if_true] at h
      rcases List.mem_cons.mp h with h1 | h2
      · exact h1 ▸ List.mem_cons_self x xs
      · exact List.mem_cons_of_mem x (ih h2)
    | false =>
      simp only [runDownloads, hx, Bool.false_eq_true, if_false] at h
      simp only [List.mem_singleton] at h
      exact h ▸ List.mem_cons_self x xs

theorem runDownloads_failed (dl : DlSpec → Bool) (l : List DlSpec)
    (h : ∃ d ∈ l, dl d = false) : (runDownloads dl l).2 = false := by
  induction l with
  | nil => simp at h
  | cons x xs ih =>
    by_cases hx : dl x = true
    · rcases h with ⟨d, hd, hdl⟩
      rcases List.mem_cons.mp hd with h1 | h2
      · rw [h1] at hdl; rw [hdl] at hx; cases hx
      · simp only [runDownloads, hx, if_true]
        exact ih ⟨d, h2, hdl⟩
    · simp [runDownloads, hx]

theorem find?_filter_of_imp {α : Type} (q r : α → Bool) (l : List α)
    (h : ∀ a, q a = true → r a = true) :
    (l.filter r).find? q = l.find? q := by
  induction l with
  | nil => rfl
  | cons a l ih =>
    by_cases hq : q a = true
    · rw [List.filter_cons, if_pos (h a hq), List.find?_cons_of_pos _ hq,
        List.find?_cons_of_pos _ hq]
    · have hq2 : ¬ q a = true := hq
      rw [List.find?_cons_of_neg _ hq2, List.filter_cons]
      by_cases hr : r a = true
      · rw [if_pos hr, List.find?_cons_of_neg _ hq2, ih]
      · rw [if_neg hr, ih]

theorem readFileAt_writeFileAt_self (path : String) (bytes : List Nat)
    (fs : FileSys) :
    readFileAt path (writeFileAt path bytes fs) = some bytes := by
  simp [readFileAt, writeFileAt]

theorem readFileAt_writeFileAt_other (p path : String) (bytes : List Nat)
    (fs : FileSys) (h : p ≠ path) :
    readFileAt p (writeFileAt path bytes fs) = readFileAt p fs := by
  simp only [readFileAt, writeFileAt]
  rw [List.find?_cons_of_neg, find?_filter_of_imp]
  · intro kv hkv
    simp only [decide_eq_true_eq] at hkv
    simp only [ne_eq, decide_not, Bool.not_eq_eq_eq_not, Bool.not_true,
      decide_eq_false_iff_not]
    rw [hkv]
    exact h
  · simp only [decide_eq_true_eq]
    exact fun hc => h hc.symm

theorem ancestorChain_head (fuel : Nat) (d : String) :
    d ∈ ancestorChain (fuel + 1) d := by
  by_cases hfix : dirname d = d
  · simp [ancestorChain, hfix]
  · simp [ancestorChain, hfix]

theorem mainAssetMode_downloads_mem (M : String → String → Bool)
    (dl : DlSpec → Bool) (inp : MainInputs) (release : Release)
    (target : String) (d : DlSpec)
    (h : d ∈ (mainAssetMode M dl inp release target).downloads) :
    d ∈ assetDlSpecs M inp.usesRegex inp.file target release.assets := by
  by_cases hm : matchedAssets M inp.usesRegex inp.file release.assets = []
  · simp [mainAssetMode, hm] at h
  · simp only [mainAssetMode, hm, if_false] at h
    by_cases ht : (runDownloads dl
        (assetDlSpecs M inp.usesRegex inp.file target release.assets)).2 = true
    · simp only [ht, if_true] at h
      exact runDownloads_mem _ _ _ h
    · simp only [ht, if_false] at h
      exact runDownloads_mem _ _ _ h

/-! ## Claim theorems -/

/-- C1. The claim reads the retry call as a bounded five-attempt loop
with a one-second minimum delay that raises after exhaustion. In the
code the options record is the return value of the comma expression
inside the callback and the download promise is discarded, so even when
every HTTP attempt fails the retry executor runs the callback once,
starts exactly one download, and settles successfully with the options
record: no retry, no delay, no raised failure, for fetchAssetFile and
fetchSourceFile alike. -/
theorem c1_retry_policy_inert :
    fetchAssetFile (fun _ => false) =
      { cbCalls := 1, downloadsStarted := 1
        result := Except.ok { retries := 5, minTimeout := 1000 } } ∧
    fetchSourceFile (fun _ => false) =
      { cbCalls := 1, downloadsStarted := 1
        result := Except.ok { retries := 5, minTimeout := 1000 } } :=
  ⟨rfl, rfl⟩

/-- C3. getRepo returns the exact owner and name pair for a well-formed
owner slash name input, falls back to the ambient context for the empty
input, and raises Malformed repo for a non-empty input without a
slash. -/
theorem c3_getRepo_contract (ctx : ActionContext) (owner name : String)
    (ho : '/' ∉ owner.data) (hn : '/' ∉ name.data) :
    getRepo "" ctx = Except.ok ⟨ctx.owner, ctx.repo⟩ ∧
    getRepo (owner ++ "/" ++ name) ctx = Except.ok ⟨owner, name⟩ ∧
    (∀ s, s ≠ "" → '/' ∉ s.data →
      getRepo s ctx = Except.error "Malformed repo") := by
  refine ⟨rfl, ?_, ?_⟩
  · have hne : owner ++ "/" ++ name ≠ "" := by
      intro hc
      have : (owner ++ "/" ++ name).data = "".data := by rw [hc]
      simp [String.data_append] at this
    rw [getRepo, if_neg hne]
    simp [jsSplit_two owner name ho hn]
  · intro s hs hsl
    rw [getRepo, if_neg hs]
    have : jsSplit '/' s = [s] := by
      rw [jsSplit, jsSplitChar_of_not_mem _ _ hsl]
      simp
    simp [this]

/-- C3 witness. -/
theorem c3_getRepo_contract_witness :
    getRepo "foo/bar" ⟨"octo", "proj"⟩ = Except.ok ⟨"foo", "bar"⟩ :=
  (c3_getRepo_contract ⟨"octo", "proj"⟩ "foo" "bar"
    (by decide) (by decide)).2.1

/-- C4. getRelease requests the latest release for the descriptor
latest; for a descriptor the tag pattern matches with a non-empty
capture it requests exactly that tag; every other descriptor is coerced
with Number, truncated with Math.trunc and requested as a release
identifier, so a non-numeric descriptor reaches the lookup as NaN. -/
theorem c4_getRelease_dispatch (owner repo : String) :
    getRelease owner repo "latest" = ReleaseRequest.latest owner repo ∧
    (∀ version tag, matchTagsPattern version = some tag → tag ≠ "" →
      getRelease owner repo version = ReleaseRequest.byTag owner repo tag) ∧
    (∀ version, version ≠ "latest" →
      jsTruthyCapture (matchTagsPattern version) = false →
      getRelease owner repo version =
        ReleaseRequest.byId owner repo (jsTrunc (jsStrToNumber version))) ∧
    getRelease owner repo "12345" =
      ReleaseRequest.byId owner repo (JsNum.fin 12345 1) ∧
    jsTrunc (jsStrToNumber "not-a-number") = JsNum.nan := by
  refine ⟨rfl, ?_, ?_, rfl, by decide⟩
  · intro version tag hm ht
    have hv : version ≠ "latest" := by
      intro hc
      rw [hc] at hm
      exact Option.noConfusion hm
    have htruthy : jsTruthyCapture (some tag) = true := by
      simpa [jsTruthyCapture] using ht
    rw [getRelease]
    simp only [if_neg hv, hm, htruthy, if_true, Option.getD_some]
  · intro version hv hfalse
    rw [getRelease]
    simp only [if_neg hv, hfalse, Bool.false_eq_true, if_false]

/-- C4 witness. -/
theorem c4_getRelease_dispatch_witness :
    getRelease "octo" "proj" "tags/v1.2.3" =
      ReleaseRequest.byTag "octo" "proj" "v1.2.3" :=
  (c4_getRelease_dispatch "octo" "proj").2.1 "tags/v1.2.3" "v1.2.3"
    rfl (by decide)

/-- C10. For the descriptor of the bare tag head with an empty tag, the
capture is empty, so the guard rejects the tag branch and getRelease
requests a release identifier equal to the truncated Number coercion of
the descriptor, which is NaN. -/
theorem c10_empty_tag_falls_to_id (owner repo : String) :
    matchTagsPattern "tags/" = some "" ∧
    getRelease owner repo "tags/" =
      ReleaseRequest.byId owner repo (jsTrunc (jsStrToNumber "tags/")) ∧
    jsTrunc (jsStrToNumber "tags/") = JsNum.nan :=
  ⟨rfl, rfl, by decide⟩

/-- C5. The exact matcher selects exactly the assets whose name equals
the query case-sensitively; the pattern matcher selects exactly the
assets whose name holds a contiguous substring the compiled pattern
matches; both preserve the original order, and zero matches is the empty
list, not an error. -/
theorem c5_asset_matcher (M : String → String → Bool) (file : String)
    (assets : List Asset) :
    (∀ a, a ∈ matchedAssets M false file assets ↔
      a ∈ assets ∧ a.name = file) ∧
    (∀ a, a ∈ matchedAssets M true file assets ↔
      a ∈ assets ∧ ∃ sub, sub <:+: a.name.data ∧ M file (String.mk sub) = true) ∧
    List.Sublist (matchedAssets M false file assets) assets ∧
    List.Sublist (matchedAssets M true file assets) assets ∧
    ((∀ a ∈ assets, a.name ≠ file) → matchedAssets M false file assets = []) ∧
    ((∀ a ∈ assets, jsRegexTest M file a.name = false) →
      matchedAssets M true file assets = []) := by
  refine ⟨?_, ?_, ?_, ?_, ?_, ?_⟩
  · intro a
    simp only [matchedAssets, Bool.false_eq_true, if_false, List.mem_filter,
      filterByFileName, decide_eq_true_eq]
    exact and_congr_right (fun _ => eq_comm)
  · intro a
    simp only [matchedAssets, if_true, List.mem_filter, filterByRegex,
      jsRegexTest, List.any_eq_true]
    refine and_congr_right (fun _ => ?_)
    constructor
    · intro h
      rcases h with ⟨sub, hmem, hM⟩
      exact ⟨sub, (mem_listInfixes sub a.name.data).mp hmem, hM⟩
    · intro h
      rcases h with ⟨sub, hinf, hM⟩
      exact ⟨sub, (mem_listInfixes sub a.name.data).mpr hinf, hM⟩
  · exact List.filter_sublist assets
  · exact List.filter_sublist assets
  · intro h
    simp only [matchedAssets, Bool.false_eq_true, if_false]
    rw [List.filter_eq_nil_iff]
    intro a ha
    simp only [filterByFileName, decide_eq_true_eq]
    exact fun hc => h a ha hc.symm
  · intro h
    simp only [matchedAssets, if_true]
    rw [List.filter_eq_nil_iff]
    intro a ha
    simp [filterByRegex, h a ha]

/-- C5 witness: with a full-equality pattern oracle, the exact matcher
keeps only the case-sensitively equal name and the pattern matcher
accepts a proper substring match. -/
theorem c5_asset_matcher_witness :
    (⟨1, "app.zip"⟩ : Asset) ∈
      matchedAssets (fun p s => p == s) false "app.zip"
        [⟨1, "app.zip"⟩, ⟨2, "App.zip"⟩] :=
  ((c5_asset_matcher (fun p s => p == s) "app.zip"
      [⟨1, "app.zip"⟩, ⟨2, "App.zip"⟩]).1 ⟨1, "app.zip"⟩).mpr
    ⟨by simp, rfl⟩

/-- C7. A single baseFetchFile attempt accepts the response exactly when
its status is in the success range; a non-ok response has its body read
and logged and raises without touching the filesystem; an ok response
has its body written to the output path, overwriting what was there,
after the parent directory and every missing ancestor are created. -/
theorem c7_single_attempt_contract (response : HttpResponse)
    (outputPath : String) (fs : FileSys) :
    ((baseFetchFile response outputPath fs).outcome = Except.ok () ↔
      response.ok = true) ∧
    (response.ok = false →
      baseFetchFile response outputPath fs =
        { fs := fs, logged := [response.body]
          outcome := Except.error "Invalid response" }) ∧
    (response.ok = true →
      readFileAt outputPath (baseFetchFile response outputPath fs).fs =
        some response.body ∧
      (∀ p, p ≠ outputPath →
        readFileAt p (baseFetchFile response outputPath fs).fs =
          readFileAt p fs) ∧
      (∀ x ∈ ancestorChain ((dirname outputPath).data.length + 2)
          (dirname outputPath),
        dirExists x (baseFetchFile response outputPath fs).fs) ∧
      dirExists (dirname outputPath) (baseFetchFile response outputPath fs).fs ∧
      (baseFetchFile response outputPath fs).logged = []) := by
  cases hok : response.ok with
  | false =>
    refine ⟨?_, fun _ => ?_, fun hc => absurd hc (by simp [hok])⟩
    · simp [baseFetchFile, hok]
    · simp [baseFetchFile, hok]
  | true =>
    refine ⟨by simp [baseFetchFile, hok], fun hc => absurd hc (by simp [hok]),
      fun _ => ⟨?_, ?_, ?_, ?_, ?_⟩⟩
    · simp only [baseFetchFile, hok, Bool.not_true, Bool.false_eq_true,
        if_false]
      exact readFileAt_writeFileAt_self _ _ _
    · intro p hp
      simp only [baseFetchFile, hok, Bool.not_true, Bool.false_eq_true,
        if_false]
      rw [readFileAt_writeFileAt_other _ _ _ _ hp]
      rfl
    · intro x hx
      simp only [baseFetchFile, hok, Bool.not_true, Bool.false_eq_true,
        if_false]
      show x ∈ (writeFileAt _ _ _).dirs
      exact List.mem_append_left _ hx
    · simp only [baseFetchFile, hok, Bool.not_true, Bool.false_eq_true,
        if_false]
      show dirname outputPath ∈ (writeFileAt _ _ _).dirs
      exact List.mem_append_left _
        (ancestorChain_head ((dirname outputPath).data.length + 1) _)
    · simp [baseFetchFile, hok]

/-- C7 witness. -/
theorem c7_single_attempt_contract_witness :
    readFileAt "out/dir/f.bin"
      (baseFetchFile ⟨true, [7, 8]⟩ "out/dir/f.bin" ⟨[], []⟩).fs =
      some [7, 8] :=
  ((c7_single_attempt_contract ⟨true, [7, 8]⟩ "out/dir/f.bin" ⟨[], []⟩).2.2
    rfl).1

/-- C2 counterexample: in the src/index.ts variant an archive-only run
with target input t and file input f issues its single archive download
to the output path t, not to the path t followed by f and the zip
suffix the claim states. -/
theorem c2_counterexample :
    (mainIndexTs (fun _ _ => false) (fun _ => true) ⟨"f", "t", false, true⟩
       ⟨"v", "n", "b", [], some "u"⟩).downloads = [DlSpec.sourceDl "u" "t"] ∧
    ("t" : String) ≠ "t" ++ "f" ++ ".zip" :=
  ⟨rfl, by decide⟩

/-- C2 amended: with only-source-zip set, each variant performs exactly
one download, against the resolved release archive URL, and neither
variant reads the asset list; the part_000 variant persists to target
followed by file and the zip suffix, while the src/index.ts variant
persists to the plain target. -/
theorem c2_archive_mode (M : String → String → Bool) (dl : DlSpec → Bool)
    (inp : MainInputs) (release : Release)
    (hz : inp.onlySourceZip = true) :
    (mainPart000 M dl inp release).downloads =
      [DlSpec.sourceDl (release.zipball_url.getD "")
        (resolveTarget inp.inputTarget inp.file ++ inp.file ++ ".zip")] ∧
    (mainIndexTs M dl inp release).downloads =
      [DlSpec.sourceDl (release.zipball_url.getD "")
        (resolveTarget inp.inputTarget inp.file)] ∧
    (∀ a1 a2 : List Asset,
      mainPart000 M dl inp { release with assets := a1 } =
        mainPart000 M dl inp { release with assets := a2 }) ∧
    (∀ a1 a2 : List Asset,
      mainIndexTs M dl inp { release with assets := a1 } =
        mainIndexTs M dl inp { release with assets := a2 }) := by
  refine ⟨?_, ?_, ?_, ?_⟩
  · by_cases hdl : dl (DlSpec.sourceDl (release.zipball_url.getD "")
        (resolveTarget inp.inputTarget inp.file ++ inp.file ++ ".zip")) = true
    · simp [mainPart000, hz, hdl]
    · simp [mainPart000, hz, hdl]
  · by_cases hdl : dl (DlSpec.sourceDl (release.zipball_url.getD "")
        (resolveTarget inp.inputTarget inp.file)) = true
    · simp [mainIndexTs, hz, hdl]
    · simp [mainIndexTs, hz, hdl]
  · intro a1 a2
    simp [mainPart000, hz, printOutput]
  · intro a1 a2
    simp [mainIndexTs, hz, printOutput]

/-- C2 witness. -/
theorem c2_archive_mode_witness :
    (mainPart000 (fun _ _ => false) (fun _ => true) ⟨"f", "t", false, true⟩
       ⟨"v", "n", "b", [], some "u"⟩).downloads =
      [DlSpec.sourceDl "u" ("t" ++ "f" ++ ".zip")] :=
  (c2_archive_mode (fun _ _ => false) (fun _ => true) ⟨"f", "t", false, true⟩
    ⟨"v", "n", "b", [], some "u"⟩ rfl).1

/-- C6. In asset mode, zero matches abort the run before any download;
otherwise each matched asset is downloaded sequentially in list order,
to the fixed target in exact mode and to the target followed by the
asset name in regex mode. Both variants share this tail. -/
theorem c6_asset_mode (M : String → String → Bool) (dl : DlSpec → Bool)
    (inp : MainInputs) (release : Release)
    (hz : inp.onlySourceZip = false) :
    (matchedAssets M inp.usesRegex inp.file release.assets = [] →
      mainIndexTs M dl inp release =
        { downloads := [], outputs := []
          failed := some "Could not find asset id" } ∧
      mainPart000 M dl inp release =
        { downloads := [], outputs := []
          failed := some "Could not find asset id" }) ∧
    (matchedAssets M inp.usesRegex inp.file release.assets ≠ [] →
      (∀ d ∈ assetDlSpecs M inp.usesRegex inp.file
          (resolveTarget inp.inputTarget inp.file) release.assets,
        dl d = true) →
      mainIndexTs M dl inp release =
        { downloads := assetDlSpecs M inp.usesRegex inp.file
            (resolveTarget inp.inputTarget inp.file) release.assets
          outputs := printOutput release, failed := none } ∧
      mainPart000 M dl inp release =
        { downloads := assetDlSpecs M inp.usesRegex inp.file
            (resolveTarget inp.inputTarget inp.file) release.assets
          outputs := printOutput release, failed := none }) ∧
    (∀ a, assetOutputPath false (resolveTarget inp.inputTarget inp.file) a =
      resolveTarget inp.inputTarget inp.file) ∧
    (∀ a, assetOutputPath true (resolveTarget inp.inputTarget inp.file) a =
      resolveTarget inp.inputTarget inp.file ++ a.name) := by
  refine ⟨fun hm => ?_, fun hm hok => ?_, fun a => rfl, fun a => rfl⟩
  · constructor
    · simp [mainIndexTs, mainAssetMode, hz, hm]
    · simp [mainPart000, mainAssetMode, hz, hm]
  · have hrun := runDownloads_all_ok dl
      (assetDlSpecs M inp.usesRegex inp.file
        (resolveTarget inp.inputTarget inp.file) release.assets) hok
    constructor
    · simp [mainIndexTs, mainAssetMode, hz, hm, hrun]
    · simp [mainPart000, mainAssetMode, hz, hm, hrun]

/-- C6 witness. -/
theorem c6_asset_mode_witness :
    mainIndexTs (fun p s => p == s) (fun _ => true)
      ⟨"app.zip", "t", false, false⟩
      ⟨"v", "n", "b", [⟨1, "app.zip"⟩, ⟨2, "other"⟩], none⟩ =
      { downloads := [DlSpec.assetDl 1 "t"]
        outputs := [("version", "v"), ("name", "n"), ("body", "b")]
        failed := none } := by
  have h := (c6_asset_mode (fun p s => p == s) (fun _ => true)
      ⟨"app.zip", "t", false, false⟩
      ⟨"v", "n", "b", [⟨1, "app.zip"⟩, ⟨2, "other"⟩], none⟩ rfl).2.1
    (by decide) (fun d _ => rfl)
  exact h.1

/-- C8 counterexample: in the part_000 variant an archive-only run whose
download fails aborts with the failure and records no output field, so
the claim that archive-only mode catches the failure into an output
field does not hold of that variant. -/
theorem c8_counterexample :
    (mainPart000 (fun _ _ => false) (fun _ => false) ⟨"f", "t", false, true⟩
       ⟨"v", "n", "b", [], some "u"⟩).failed = some "Invalid response" ∧
    (mainPart000 (fun _ _ => false) (fun _ => false) ⟨"f", "t", false, true⟩
       ⟨"v", "n", "b", [], some "u"⟩).outputs = [] :=
  ⟨rfl, rfl⟩

/-- C8 amended: in archive-only mode the src/index.ts variant catches a
download failure, records it as a step output and completes, while the
part_000 variant aborts; in asset mode both variants abort when any
awaited download fails. -/
theorem c8_error_policy (M : String → String → Bool) (dl : DlSpec → Bool)
    (inp : MainInputs) (release : Release) :
    (inp.onlySourceZip = true →
      dl (DlSpec.sourceDl (release.zipball_url.getD "")
        (resolveTarget inp.inputTarget inp.file)) = false →
      mainIndexTs M dl inp release =
        { downloads := [DlSpec.sourceDl (release.zipball_url.getD "")
            (resolveTarget inp.inputTarget inp.file)]
          outputs := [("Error on retrieve source zip", "Invalid response")]
          failed := none }) ∧
    (inp.onlySourceZip = true →
      dl (DlSpec.sourceDl (release.zipball_url.getD "")
        (resolveTarget inp.inputTarget inp.file ++ inp.file ++ ".zip")) =
          false →
      (mainPart000 M dl inp release).failed = some "Invalid response") ∧
    (inp.onlySourceZip = false →
      (∃ d ∈ assetDlSpecs M inp.usesRegex inp.file
          (resolveTarget inp.inputTarget inp.file) release.assets,
        dl d = false) →
      (mainIndexTs M dl inp release).failed.isSome = true ∧
      (mainPart000 M dl inp release).failed.isSome = true) := by
  refine ⟨fun hz hdl => ?_, fun hz hdl => ?_, fun hz hex => ?_⟩
  · simp [mainIndexTs, hz, hdl]
  · simp [mainPart000, hz, hdl]
  · by_cases hm : matchedAssets M inp.usesRegex inp.file release.assets = []
    · constructor
      · simp [mainIndexTs, mainAssetMode, hz, hm]
      · simp [mainPart000, mainAssetMode, hz, hm]
    · have hrun := runDownloads_failed dl
        (assetDlSpecs M inp.usesRegex inp.file
          (resolveTarget inp.inputTarget inp.file) release.assets) hex
      constructor
      · simp [mainIndexTs, mainAssetMode, hz, hm, hrun]
      · simp [mainPart000, mainAssetMode, hz, hm, hrun]

/-- C8 witness: the src/index.ts archive branch catching a failing
download. -/
theorem c8_error_policy_witness :
    mainIndexTs (fun _ _ => false) (fun _ => false) ⟨"f", "t", false, true⟩
      ⟨"v", "n", "b", [], some "u"⟩ =
      { downloads := [DlSpec.sourceDl "u" "t"]
        outputs := [("Error on retrieve source zip", "Invalid response")]
        failed := none } :=
  (c8_error_policy (fun _ _ => false) (fun _ => false) ⟨"f", "t", false, true⟩
    ⟨"v", "n", "b", [], some "u"⟩).1 rfl rfl

/-- C9. An empty target input defaults the output base to the file
input in both variants and both modes; in particular an exact-name asset
run with an omitted target downloads every matched asset to the path
equal to the file query. -/
theorem c9_empty_target_defaults_to_file (M : String → String → Bool)
    (dl : DlSpec → Bool) (file : String) (release : Release) :
    resolveTarget "" file = file ∧
    (∀ d ∈ (mainIndexTs M dl ⟨file, "", false, false⟩ release).downloads,
      ∃ i, d = DlSpec.assetDl i file) ∧
    (∀ d ∈ (mainPart000 M dl ⟨file, "", false, false⟩ release).downloads,
      ∃ i, d = DlSpec.assetDl i file) ∧
    (mainPart000 M dl ⟨file, "", false, true⟩ release).downloads =
      [DlSpec.sourceDl (release.zipball_url.getD "")
        (file ++ file ++ ".zip")] ∧
    (mainIndexTs M dl ⟨file, "", false, true⟩ release).downloads =
      [DlSpec.sourceDl (release.zipball_url.getD "") file] := by
  refine ⟨rfl, fun d hd => ?_, fun d hd => ?_, ?_, ?_⟩
  · have hmem : d ∈ assetDlSpecs M false file (resolveTarget "" file)
        release.assets := by
      apply mainAssetMode_downloads_mem M dl ⟨file, "", false, false⟩ release
      simpa [mainIndexTs] using hd
    rcases List.mem_map.mp hmem with ⟨a, _, ha⟩
    exact ⟨a.id, ha.symm⟩
  · have hmem : d ∈ assetDlSpecs M false file (resolveTarget "" file)
        release.assets := by
      apply mainAssetMode_downloads_mem M dl ⟨file, "", false, false⟩ release
      simpa [mainPart000] using hd
    rcases List.mem_map.mp hmem with ⟨a, _, ha⟩
    exact ⟨a.id, ha.symm⟩
  · by_cases hdl : dl (DlSpec.sourceDl (release.zipball_url.getD "")
        (file ++ file ++ ".zip")) = true
    · simp [mainPart000, hdl, resolveTarget]
    · simp [mainPart000, hdl, resolveTarget]
  · by_cases hdl : dl (DlSpec.sourceDl (release.zipball_url.getD "") file) =
        true
    · simp [mainIndexTs, hdl, resolveTarget]
    · simp [mainIndexTs, hdl, resolveTarget]

/-- C9 witness. -/
theorem c9_empty_target_defaults_to_file_witness :
    ∃ i, DlSpec.assetDl 1 "app.zip" = DlSpec.assetDl i "app.zip" :=
  (c9_empty_target_defaults_to_file (fun p s => p == s) (fun _ => true)
      "app.zip" ⟨"v", "n", "b", [⟨1, "app.zip"⟩], none⟩).2.1
    (DlSpec.assetDl 1 "app.zip") (by decide)

end FetchGhReleaseAsset
